import Mathlib

/-!
# Shallow embedding of the shorelark simulation core

This file embeds the simulation core of the repository (`src/lib.rs`,
`src/world.rs`, `src/food.rs`, `src/animal.rs`, `src/animal/eye.rs`) into
Lean.  `f32` values are modelled as real numbers, `usize` as `Nat`.  The
random source (`rand::RngCore` together with `rng.gen()` producing a point
in the unit square) is modelled as a stream of points plus a cursor.
-/

noncomputable section
open scoped Classical

/-- `na::Point2<f32>` / `na::Vector2<f32>`: a pair of coordinates. -/
structure Point2 where
  x : ℝ
  y : ℝ

/-- Vectors share the representation of points, as in nalgebra. -/
abbrev Vector2 := Point2

/-- Componentwise addition (`point + vector` in nalgebra). -/
def Point2.add (a b : Point2) : Point2 :=
  ⟨a.x + b.x, a.y + b.y⟩

/-- Componentwise subtraction (`point - point` in nalgebra). -/
def Point2.sub (a b : Point2) : Point2 :=
  ⟨a.x - b.x, a.y - b.y⟩

/-- `Vector2::norm`: the Euclidean norm. -/
def vecNorm (v : Vector2) : ℝ :=
  Real.sqrt (v.x ^ 2 + v.y ^ 2)

/-- `na::distance(a, b) = (b - a).norm()`. -/
def distance (a b : Point2) : ℝ :=
  vecNorm (b.sub a)

/-- `na::wrap(val, lo, hi)`: nalgebra repeatedly subtracts (resp. adds) the
interval width `hi - lo` while the value is `> hi` (resp. `< lo`), and leaves
values in `[lo, hi]` alone.  This is the closed form of that loop: the number
of iterations is the ceiling of the overshoot divided by the width. -/
def naWrap (val lo hi : ℝ) : ℝ :=
  if hi < val then val - (hi - lo) * ⌈(val - hi) / (hi - lo)⌉
  else if val < lo then val + (hi - lo) * ⌈(lo - val) / (hi - lo)⌉
  else val

/-- Two-argument arctangent: the angle of the vector `(x, y)`, in `(-π, π]`. -/
def atan2 (y x : ℝ) : ℝ :=
  if 0 < x then Real.arctan (y / x)
  else if x < 0 then
    (if 0 ≤ y then Real.arctan (y / x) + Real.pi else Real.arctan (y / x) - Real.pi)
  else
    (if 0 < y then Real.pi / 2 else if y < 0 then -(Real.pi / 2) else 0)

/-- `na::Rotation2<f32>`, represented by its rotation angle. -/
structure Rotation2 where
  angle : ℝ

/-- `rotation * vector`: rotate a vector by the rotation's angle. -/
def Rotation2.apply (r : Rotation2) (v : Vector2) : Vector2 :=
  ⟨Real.cos r.angle * v.x - Real.sin r.angle * v.y,
   Real.sin r.angle * v.x + Real.cos r.angle * v.y⟩

/-- `na::Rotation2::rotation_between(&Vector2::x(), &v).angle()`: the angle
from the world +X axis to `v`.  nalgebra's `rotation_between` returns the
identity rotation (angle `0`) when either input has zero norm (the unit
normalization fails), so the zero vector is explicitly guarded to `0`. -/
def rotationBetweenXAngle (v : Vector2) : ℝ :=
  if v.x = 0 ∧ v.y = 0 then 0 else atan2 v.y v.x

/-- `Food` (`src/food.rs`): a single position. -/
structure Food where
  position : Point2

/-- `Eye` (`src/animal/eye.rs`): the three sensor parameters. -/
structure Eye where
  fovRange : ℝ
  fovAngle : ℝ
  cells : ℕ

/-- `Eye::new`: asserts that all three parameters are strictly positive
(`assert!` panics otherwise, modelled as `none`); on success the parameters
are stored unchanged. -/
def Eye.new (fovRange fovAngle : ℝ) (cells : ℕ) : Option Eye :=
  if 0 < fovRange ∧ 0 < fovAngle ∧ 0 < cells then
    some { fovRange := fovRange, fovAngle := fovAngle, cells := cells }
  else none

/-- `Eye::default()`: `FOV_RANGE = 0.25`, `FOV_ANGLE = PI + FRAC_PI_4`,
`CELLS = 9`. -/
def eyeDefault : Eye :=
  { fovRange := 1 / 4, fovAngle := Real.pi + Real.pi / 4, cells := 9 }

/-- `Eye::food_vec`: `food.position - position`. -/
def Eye.foodVec (position : Point2) (food : Food) : Vector2 :=
  food.position.sub position

/-- `Eye::food_angle`: angle from +X to the food vector, minus the agent's
rotation angle, wrapped into `[-π, π]` by `na::wrap`, then shifted by
`fov_angle / 2`. -/
def Eye.foodAngle (eye : Eye) (rot : Rotation2) (v : Vector2) : ℝ :=
  naWrap (rotationBetweenXAngle v - rot.angle) (-Real.pi) Real.pi + eye.fovAngle / 2

/-- `Eye::visible_food`: `dist < fov_range && angle >= 0.0 && angle <= fov_angle`. -/
def Eye.visibleFood (eye : Eye) (dist angle : ℝ) : Prop :=
  dist < eye.fovRange ∧ 0 ≤ angle ∧ angle ≤ eye.fovAngle

/-- The cell index computed in `Eye::process_vision`:
`((angle / fov_angle * cells as f32) as usize).min(cells.len() - 1)`.
The `as usize` cast of a non-negative float truncates (floor); a negative
float saturates to `0`, which `Int.toNat` reproduces.  The vision vector
always has length `self.cells`, so `cells.len() - 1 = self.cells - 1`. -/
def Eye.cellIndex (eye : Eye) (angle : ℝ) : ℕ :=
  min (⌊angle / eye.fovAngle * (eye.cells : ℝ)⌋.toNat) (eye.cells - 1)

/-- The per-food energy computed in `Eye::process_vision`:
`(fov_range - dist) / fov_range`. -/
def Eye.energy (eye : Eye) (dist : ℝ) : ℝ :=
  (eye.fovRange - dist) / eye.fovRange

/-- The body of the `for food in foods` loop of `Eye::process_vision`. -/
def Eye.visionStep (eye : Eye) (position : Point2) (rot : Rotation2)
    (cells : List ℝ) (food : Food) : List ℝ :=
  let v := Eye.foodVec position food
  let dist := vecNorm v
  let angle := eye.foodAngle rot v
  if eye.visibleFood dist angle then
    let cell := eye.cellIndex angle
    cells.set cell (cells.getD cell 0 + eye.energy dist)
  else cells

/-- `Eye::process_vision`: start from `vec![0.0; self.cells]` and fold the
per-food loop body over the food list. -/
def Eye.processVision (eye : Eye) (position : Point2) (rot : Rotation2)
    (foods : List Food) : List ℝ :=
  foods.foldl (eye.visionStep position rot) (List.replicate eye.cells 0)

/-- `Animal` (`src/animal.rs`).  The `brain` field is a value of the external
`lib_neural_network` crate; it is never read by any code in this repository's
stepping path, so it is omitted from the embedding. -/
structure Animal where
  position : Point2
  rotation : Rotation2
  speed : ℝ
  eye : Eye
  satiation : ℕ

/-- The random source: `rng.gen::<Point2<f32>>()` draws the next point of a
pre-determined stream (this models any `RngCore`: the stream is the sequence
of points the generator would produce). -/
structure Rng where
  stream : ℕ → Point2
  idx : ℕ

/-- One draw from the random source. -/
def Rng.gen (rng : Rng) : Point2 × Rng :=
  (rng.stream rng.idx, { rng with idx := rng.idx + 1 })

/-- `World` (`src/world.rs`). -/
structure World where
  animals : List Animal
  foods : List Food

/-- Inner loop of `Simulation::process_collisions`: for one animal, walk the
food list in order; whenever `na::distance(animal.position, food.position)
<= 0.01` (the food's *current* position), replace that food's position with a
fresh random draw. -/
def collideFoods (animal : Animal) : List Food → Rng → List Food × Rng
  | [], rng => ([], rng)
  | food :: rest, rng =>
    if distance animal.position food.position ≤ 1 / 100 then
      let pr := rng.gen
      let rr := collideFoods animal rest pr.2
      (⟨pr.1⟩ :: rr.1, rr.2)
    else
      let rr := collideFoods animal rest rng
      (food :: rr.1, rr.2)

/-- Outer loop of `Simulation::process_collisions`: animals in order. -/
def collideAnimals : List Animal → List Food → Rng → List Food × Rng
  | [], foods, rng => (foods, rng)
  | a :: rest, foods, rng =>
    let fr := collideFoods a foods rng
    collideAnimals rest fr.1 fr.2

/-- `Simulation::process_collisions`: only food positions (and the random
source) change; the animals — including their `satiation` counters — are not
touched by the loop body. -/
def Simulation.processCollisions (w : World) (rng : Rng) : World × Rng :=
  let fr := collideAnimals w.animals w.foods rng
  ({ w with foods := fr.1 }, fr.2)

/-- Loop body of `Simulation::process_movements`:
`position += rotation * Vector2::new(speed, 0.0)` followed by
`na::wrap(position.x, 0.0, 1.0)` and `na::wrap(position.y, 0.0, 1.0)`. -/
def moveAnimal (a : Animal) : Animal :=
  let p := a.position.add (a.rotation.apply ⟨a.speed, 0⟩)
  { a with position := ⟨naWrap p.x 0 1, naWrap p.y 0 1⟩ }

/-- `Simulation::process_movements`. -/
def Simulation.processMovements (w : World) : World :=
  { w with animals := w.animals.map moveAnimal }

/-- `Simulation::step`: collisions first, then movements. -/
def Simulation.step (w : World) (rng : Rng) : World × Rng :=
  let wr := Simulation.processCollisions w rng
  (Simulation.processMovements wr.1, wr.2)

/-! ## Snapshot semantics of the collision phase, from the spec

The spec (§4.3 phase 1, §5) describes the collision phase as observing a
consistent tick-start snapshot of food positions: every (agent, food)
distance test is evaluated against the food's position at the start of the
tick, and a food claimed by several agents is repositioned exactly once.
The following definitions follow the spec's words; they are compared with
`collideAnimals` (the code) in the theorems below. -/

/-- A food as the snapshot semantics tracks it: its tick-start position
`snap`, its current position `cur`, and whether it was already repositioned
during this tick. -/
structure SpecFood where
  snap : Point2
  cur : Point2
  moved : Bool

/-- Snapshot semantics, per agent: each test is against the tick-start
position `snap`; a food already repositioned this tick is not repositioned
again (the agent is merely credited, which does not affect foods or rng). -/
def specCollideFoods (a : Animal) : List SpecFood → Rng → List SpecFood × Rng
  | [], rng => ([], rng)
  | sf :: rest, rng =>
    if sf.moved then
      let rr := specCollideFoods a rest rng
      (sf :: rr.1, rr.2)
    else if distance a.position sf.snap ≤ 1 / 100 then
      let pr := rng.gen
      let rr := specCollideFoods a rest pr.2
      ({ sf with cur := pr.1, moved := true } :: rr.1, rr.2)
    else
      let rr := specCollideFoods a rest rng
      (sf :: rr.1, rr.2)

/-- Snapshot semantics, all agents in iteration order. -/
def specCollideAnimals : List Animal → List SpecFood → Rng → List SpecFood × Rng
  | [], sfs, rng => (sfs, rng)
  | a :: rest, sfs, rng =>
    let sr := specCollideFoods a sfs rng
    specCollideAnimals rest sr.1 sr.2

/-- Snapshot semantics of the whole collision phase: the resulting food
positions and the final random-source state. -/
def specCollisions (animals : List Animal) (foods : List Food) (rng : Rng) :
    List Point2 × Rng :=
  let init := foods.map fun f => SpecFood.mk f.position f.position false
  let sr := specCollideAnimals animals init rng
  (sr.1.map SpecFood.cur, sr.2)

/-- A point is farther than the eating radius from every animal of `as`. -/
def farPt (as : List Animal) (p : Point2) : Prop :=
  ∀ a ∈ as, ¬ (distance a.position p ≤ 1 / 100)

/-- Simulation relation between a code-side food and a spec-side food, while
the agents `as` remain to be processed. -/
def FoodRel (as : List Animal) (f : Food) (sf : SpecFood) : Prop :=
  f.position = sf.cur ∧ (sf.moved = false → sf.cur = sf.snap) ∧
    (sf.moved = true → farPt as sf.cur)

/-! ## C8: Eye construction -/

/-- C8: `Eye::new` fails exactly when one of `fov_range`, `fov_angle`,
`cells` is not strictly positive; with all three strictly positive it
succeeds and stores the three parameters unchanged (the structure is
immutable afterwards). -/
theorem Eye_new_iff (r a : ℝ) (c : ℕ) :
    (Eye.new r a c = none ↔ ¬ (0 < r ∧ 0 < a ∧ 0 < c)) ∧
    (0 < r → 0 < a → 0 < c →
      Eye.new r a c = some { fovRange := r, fovAngle := a, cells := c }) := by
  constructor
  · unfold Eye.new
    split_ifs with h
    · simp [h]
    · simp [h]
  · intro hr ha hc
    unfold Eye.new
    rw [if_pos ⟨hr, ha, hc⟩]

/-- C8 witness: a concrete valid construction and a concrete failing one. -/
theorem Eye_new_iff_witness :
    Eye.new 1 1 3 = some { fovRange := 1, fovAngle := 1, cells := 3 } ∧
    Eye.new 0 1 3 = none := by
  refine ⟨(Eye_new_iff 1 1 3).2 ?_ ?_ ?_, (Eye_new_iff 0 1 3).1.mpr ?_⟩
  · norm_num
  · norm_num
  · norm_num
  · norm_num

/-! ## C10: coincident food is handled with a defined bearing angle -/

/-- C10: for a food exactly coincident with the agent's position the
relative vector has zero norm, and `food_angle` uses the explicitly guarded
bearing value `0` (nalgebra's `rotation_between` yields the identity
rotation for a zero-length vector), so the angle is a defined real number
rather than an undefined `atan2(0, 0)`. -/
theorem foodAngle_zero_vec (eye : Eye) (rot : Rotation2) (pos : Point2)
    (food : Food) (h : food.position = pos) :
    Eye.foodVec pos food = ⟨0, 0⟩ ∧
    eye.foodAngle rot (Eye.foodVec pos food) =
      naWrap (0 - rot.angle) (-Real.pi) Real.pi + eye.fovAngle / 2 := by
  have hv : Eye.foodVec pos food = ⟨0, 0⟩ := by
    simp [Eye.foodVec, Point2.sub, h]
  refine ⟨hv, ?_⟩
  rw [hv]
  unfold Eye.foodAngle rotationBetweenXAngle
  rw [if_pos ⟨rfl, rfl⟩]

/-- C10 witness: concrete coincident agent and food. -/
theorem foodAngle_zero_vec_witness :
    (Food.mk ⟨1/2, 1/2⟩).position = Point2.mk (1/2) (1/2) ∧
    (Eye.foodVec ⟨1/2, 1/2⟩ (Food.mk ⟨1/2, 1/2⟩) = ⟨0, 0⟩ ∧
      eyeDefault.foodAngle ⟨0⟩ (Eye.foodVec ⟨1/2, 1/2⟩ (Food.mk ⟨1/2, 1/2⟩)) =
        naWrap (0 - (Rotation2.mk 0).angle) (-Real.pi) Real.pi +
          eyeDefault.fovAngle / 2) :=
  ⟨rfl, foodAngle_zero_vec eyeDefault ⟨0⟩ ⟨1/2, 1/2⟩ (Food.mk ⟨1/2, 1/2⟩) rfl⟩

/-! ## C2: the step never consults a controller -/

/-- C2: a tick (`Simulation::step`) only runs `process_collisions` and
`process_movements`; no sensory vector is built and no controller command is
applied, so every animal's speed and rotation are bit-for-bit unchanged by
the step — contradicting the claim that the controller's 2-component command
updates speed and heading before the displacement. -/
theorem step_applies_no_controller (w : World) (rng : Rng) :
    ((Simulation.step w rng).1.animals).map (fun a => (a.speed, a.rotation)) =
      w.animals.map (fun a => (a.speed, a.rotation)) := by
  simp only [Simulation.step, Simulation.processCollisions,
    Simulation.processMovements, List.map_map]
  rfl

/-- The distance from a point to itself is zero. -/
lemma distance_self (p : Point2) : distance p p = 0 := by
  simp [distance, vecNorm, Point2.sub]

/-- The Euclidean norm is non-negative. -/
lemma vecNorm_nonneg (v : Vector2) : 0 ≤ vecNorm v :=
  Real.sqrt_nonneg _

/-! ## C1: collisions respawn food but never touch satiation -/

/-- One agent sitting exactly on two food items. -/
def worldC1 : World :=
  ⟨[⟨⟨1/2, 1/2⟩, ⟨0⟩, 1/500, eyeDefault, 0⟩],
   [⟨⟨1/2, 1/2⟩⟩, ⟨⟨1/2, 1/2⟩⟩]⟩

/-- A random source whose draws all land at `(0.9, 0.9)`. -/
def rngC1 : Rng := ⟨fun _ => ⟨9/10, 9/10⟩, 0⟩

/-- C1: at the failing input — an agent within `0.01` of two distinct foods —
`process_collisions` does respawn both foods (two random draws are consumed,
both foods move to the drawn position), but the agent's satiation counter is
left at `0`: the loop body of `Simulation::process_collisions` only writes
`food.position` and never increments `satiation`, contradicting the claim
that satiation increases by 1 per eaten food (2 in this scenario). -/
theorem collisions_ignore_satiation :
    (Simulation.processCollisions worldC1 rngC1).1.animals.map Animal.satiation
        = [0] ∧
    (Simulation.processCollisions worldC1 rngC1).1.foods.map Food.position
        = [⟨9/10, 9/10⟩, ⟨9/10, 9/10⟩] ∧
    (Simulation.processCollisions worldC1 rngC1).2.idx = 2 := by
  refine ⟨?_, ?_, ?_⟩ <;>
    norm_num [Simulation.processCollisions, collideAnimals, collideFoods,
      worldC1, rngC1, Rng.gen, distance_self]

/-! ## C6: the cell index is always in range, boundaries included -/

/-- C6: for every valid eye, the sensed-cell index
`min ⌊angle / fov_angle * cells⌋ (cells - 1)` is a valid index (`< cells`)
whatever the shifted angle is; the angular boundaries map to cell `0` and to
cell `cells - 1`, and boundary angles are visible whenever the distance is. -/
theorem cellIndex_valid (eye : Eye) (hc : 0 < eye.cells) (ha : 0 < eye.fovAngle) :
    (∀ angle : ℝ, eye.cellIndex angle < eye.cells) ∧
    eye.cellIndex 0 = 0 ∧
    eye.cellIndex eye.fovAngle = eye.cells - 1 ∧
    (∀ dist : ℝ, dist < eye.fovRange →
      eye.visibleFood dist 0 ∧ eye.visibleFood dist eye.fovAngle) := by
  refine ⟨?_, ?_, ?_, ?_⟩
  · intro angle
    exact lt_of_le_of_lt (min_le_right _ _) (Nat.sub_lt hc one_pos)
  · simp [Eye.cellIndex]
  · rw [Eye.cellIndex, div_self (ne_of_gt ha), one_mul, Int.floor_natCast]
    simp [min_eq_right (Nat.sub_le eye.cells 1)]
  · intro dist hd
    exact ⟨⟨hd, le_refl 0, le_of_lt ha⟩, ⟨hd, le_of_lt ha, le_refl _⟩⟩

/-- C6 witness: a concrete valid eye (range 1, angle 2, five cells). -/
theorem cellIndex_valid_witness :
    0 < (Eye.mk 1 2 5).cells ∧ 0 < (Eye.mk 1 2 5).fovAngle ∧
    ((∀ angle : ℝ, (Eye.mk 1 2 5).cellIndex angle < (Eye.mk 1 2 5).cells) ∧
      (Eye.mk 1 2 5).cellIndex 0 = 0 ∧
      (Eye.mk 1 2 5).cellIndex (Eye.mk 1 2 5).fovAngle = (Eye.mk 1 2 5).cells - 1 ∧
      (∀ dist : ℝ, dist < (Eye.mk 1 2 5).fovRange →
        (Eye.mk 1 2 5).visibleFood dist 0 ∧
        (Eye.mk 1 2 5).visibleFood dist (Eye.mk 1 2 5).fovAngle)) :=
  ⟨by norm_num, by norm_num, cellIndex_valid ⟨1, 2, 5⟩ (by norm_num) (by norm_num)⟩

/-! ## C7: the energy contribution and its monotonicity -/

/-- C7: for a visible food (distance = norm of the relative vector, strictly
below `fov_range`) the energy `(fov_range - dist) / fov_range` lies in
`(0, 1]`, and it is strictly decreasing in the distance: `d1 < d2 <
fov_range` gives `energy d2 < energy d1`. -/
theorem energy_monotone (eye : Eye) (hr : 0 < eye.fovRange) :
    (∀ v : Vector2, vecNorm v < eye.fovRange →
      0 < eye.energy (vecNorm v) ∧ eye.energy (vecNorm v) ≤ 1) ∧
    (∀ d1 d2 : ℝ, d1 < d2 → d2 < eye.fovRange →
      eye.energy d2 < eye.energy d1) := by
  constructor
  · intro v hv
    refine ⟨div_pos (sub_pos.mpr hv) hr, ?_⟩
    rw [Eye.energy, div_le_one hr]
    exact sub_le_self _ (vecNorm_nonneg v)
  · intro d1 d2 h12 _
    rw [Eye.energy, Eye.energy]
    exact (div_lt_div_iff_of_pos_right hr).mpr (sub_lt_sub_left h12 _)

/-- C7 witness: a concrete eye of range 1. -/
theorem energy_monotone_witness :
    0 < (Eye.mk 1 2 4).fovRange ∧
    ((∀ v : Vector2, vecNorm v < (Eye.mk 1 2 4).fovRange →
        0 < (Eye.mk 1 2 4).energy (vecNorm v) ∧
          (Eye.mk 1 2 4).energy (vecNorm v) ≤ 1) ∧
      (∀ d1 d2 : ℝ, d1 < d2 → d2 < (Eye.mk 1 2 4).fovRange →
        (Eye.mk 1 2 4).energy d2 < (Eye.mk 1 2 4).energy d1)) :=
  ⟨by norm_num, energy_monotone ⟨1, 2, 4⟩ (by norm_num)⟩

/-! ## C4/C5 helper lemmas about the vision fold -/

/-- Entries of a non-negative list read through `getD _ 0` are non-negative. -/
lemma list_getD_nonneg {l : List ℝ} (h : ∀ x ∈ l, 0 ≤ x) (i : ℕ) :
    0 ≤ l.getD i 0 := by
  rcases lt_or_le i l.length with hi | hi
  · rw [List.getD_eq_getElem?_getD, List.getElem?_eq_getElem hi]
    exact h _ (List.getElem_mem hi)
  · rw [List.getD_eq_getElem?_getD, List.getElem?_eq_none hi]
    rfl

/-- One vision-loop iteration preserves the vector length. -/
lemma visionStep_length (eye : Eye) (pos : Point2) (rot : Rotation2)
    (cells : List ℝ) (food : Food) :
    (eye.visionStep pos rot cells food).length = cells.length := by
  simp only [Eye.visionStep]
  split
  · simp
  · rfl

/-- The energy of a visible food is positive. -/
lemma energy_pos_of_visible (eye : Eye) (hr : 0 < eye.fovRange) {dist angle : ℝ}
    (hvis : eye.visibleFood dist angle) : 0 < eye.energy dist :=
  div_pos (sub_pos.mpr hvis.1) hr

/-- One vision-loop iteration preserves non-negativity of all entries. -/
lemma visionStep_nonneg (eye : Eye) (pos : Point2) (rot : Rotation2)
    (cells : List ℝ) (food : Food) (hr : 0 < eye.fovRange)
    (h : ∀ x ∈ cells, 0 ≤ x) :
    ∀ x ∈ eye.visionStep pos rot cells food, 0 ≤ x := by
  intro x hx
  simp only [Eye.visionStep] at hx
  split at hx
  case isTrue hvis =>
    rcases List.mem_or_eq_of_mem_set hx with hx' | rfl
    · exact h x hx'
    · exact add_nonneg (list_getD_nonneg h _)
        (le_of_lt (energy_pos_of_visible eye hr hvis))
  case isFalse => exact h x hx

/-- One vision-loop iteration never decreases any entry. -/
lemma visionStep_getD_mono (eye : Eye) (pos : Point2) (rot : Rotation2)
    (cells : List ℝ) (food : Food) (hr : 0 < eye.fovRange) (i : ℕ) :
    cells.getD i 0 ≤ (eye.visionStep pos rot cells food).getD i 0 := by
  simp only [Eye.visionStep]
  split
  case isTrue hvis =>
    have he : 0 ≤ eye.energy (vecNorm (Eye.foodVec pos food)) :=
      le_of_lt (energy_pos_of_visible eye hr hvis)
    rcases lt_or_le (eye.cellIndex (eye.foodAngle rot (Eye.foodVec pos food)))
        cells.length with hc | hc
    · rcases eq_or_ne i
          (eye.cellIndex (eye.foodAngle rot (Eye.foodVec pos food))) with rfl | hne
      · simp only [List.getD_eq_getElem?_getD]
        rw [List.getElem?_set_self hc, Option.getD_some]
        exact le_add_of_nonneg_right he
      · simp only [List.getD_eq_getElem?_getD]
        rw [List.getElem?_set_ne (Ne.symm hne)]
    · rw [List.set_eq_of_length_le hc]
  case isFalse => exact le_refl _

/-- A food at distance at least `fov_range` leaves the vector unchanged. -/
lemma visionStep_invisible (eye : Eye) (pos : Point2) (rot : Rotation2)
    (cells : List ℝ) (food : Food)
    (hd : eye.fovRange ≤ vecNorm (Eye.foodVec pos food)) :
    eye.visionStep pos rot cells food = cells := by
  simp only [Eye.visionStep]
  exact if_neg fun hvis => absurd hvis.1 (not_lt.mpr hd)

/-- The vision fold preserves the vector length. -/
lemma processVision_length_aux (eye : Eye) (pos : Point2) (rot : Rotation2)
    (foods : List Food) : ∀ cells : List ℝ,
    (foods.foldl (eye.visionStep pos rot) cells).length = cells.length := by
  induction foods with
  | nil => intro cells; rfl
  | cons f fs ih =>
    intro cells
    rw [List.foldl_cons, ih, visionStep_length]

/-- The vision fold preserves non-negativity of all entries. -/
lemma processVision_nonneg_aux (eye : Eye) (pos : Point2) (rot : Rotation2)
    (hr : 0 < eye.fovRange) (foods : List Food) :
    ∀ cells : List ℝ, (∀ x ∈ cells, 0 ≤ x) →
      ∀ x ∈ foods.foldl (eye.visionStep pos rot) cells, 0 ≤ x := by
  induction foods with
  | nil => intro cells h; simpa using h
  | cons f fs ih =>
    intro cells h
    rw [List.foldl_cons]
    exact ih _ (visionStep_nonneg eye pos rot cells f hr h)

/-! ## C4: shape of the sensory vector -/

/-- C4: for a valid eye, `process_vision` returns exactly `cells` entries,
all non-negative; on no food it is the all-zero vector, and appending one
more food can only increase each entry (contributions accumulate additively,
with no clamp). -/
theorem processVision_length_nonneg (eye : Eye) (pos : Point2) (rot : Rotation2)
    (foods : List Food) (hr : 0 < eye.fovRange) (_ha : 0 < eye.fovAngle)
    (_hc : 0 < eye.cells) :
    (eye.processVision pos rot foods).length = eye.cells ∧
    (∀ x ∈ eye.processVision pos rot foods, 0 ≤ x) ∧
    eye.processVision pos rot [] = List.replicate eye.cells 0 ∧
    (∀ (f : Food) (i : ℕ),
      (eye.processVision pos rot foods).getD i 0 ≤
        (eye.processVision pos rot (foods ++ [f])).getD i 0) := by
  refine ⟨?_, ?_, rfl, ?_⟩
  · rw [Eye.processVision, processVision_length_aux, List.length_replicate]
  · refine processVision_nonneg_aux eye pos rot hr foods _ ?_
    intro x hx
    rw [List.eq_of_mem_replicate hx]
  · intro f i
    rw [Eye.processVision, Eye.processVision, List.foldl_append, List.foldl_cons,
      List.foldl_nil]
    exact visionStep_getD_mono eye pos rot _ f hr i

/-- C4 witness: a concrete valid eye, no food. -/
theorem processVision_length_nonneg_witness :
    0 < (Eye.mk 1 2 4).fovRange ∧ 0 < (Eye.mk 1 2 4).fovAngle ∧
      0 < (Eye.mk 1 2 4).cells ∧
    (((Eye.mk 1 2 4).processVision ⟨0, 0⟩ ⟨0⟩ []).length = (Eye.mk 1 2 4).cells ∧
      (∀ x ∈ (Eye.mk 1 2 4).processVision ⟨0, 0⟩ ⟨0⟩ [], 0 ≤ x) ∧
      (Eye.mk 1 2 4).processVision ⟨0, 0⟩ ⟨0⟩ [] =
        List.replicate (Eye.mk 1 2 4).cells 0 ∧
      (∀ (f : Food) (i : ℕ),
        ((Eye.mk 1 2 4).processVision ⟨0, 0⟩ ⟨0⟩ []).getD i 0 ≤
          ((Eye.mk 1 2 4).processVision ⟨0, 0⟩ ⟨0⟩ ([] ++ [f])).getD i 0)) :=
  ⟨by norm_num, by norm_num, by norm_num,
    processVision_length_nonneg ⟨1, 2, 4⟩ ⟨0, 0⟩ ⟨0⟩ []
      (by norm_num) (by norm_num) (by norm_num)⟩

/-! ## C5: foods at distance at least fov_range contribute nothing -/

/-- C5: removing a food whose distance from the agent is `≥ fov_range`
(boundary case `=` included: visibility requires the strict inequality
`dist < fov_range`) does not change the output of `process_vision`, wherever
that food sits in the food list. -/
theorem processVision_far_food (eye : Eye) (pos : Point2) (rot : Rotation2)
    (pre post : List Food) (food : Food)
    (hd : eye.fovRange ≤ vecNorm (Eye.foodVec pos food)) :
    eye.processVision pos rot (pre ++ food :: post) =
      eye.processVision pos rot (pre ++ post) := by
  rw [Eye.processVision, Eye.processVision, List.foldl_append, List.foldl_append,
    List.foldl_cons, visionStep_invisible eye pos rot _ food hd]

/-- C5 witness: an eye of range 1 and a food at distance exactly 1. -/
theorem processVision_far_food_witness :
    (Eye.mk 1 2 3).fovRange ≤ vecNorm (Eye.foodVec ⟨0, 0⟩ (Food.mk ⟨1, 0⟩)) ∧
    (Eye.mk 1 2 3).processVision ⟨0, 0⟩ ⟨0⟩ ([] ++ Food.mk ⟨1, 0⟩ :: []) =
      (Eye.mk 1 2 3).processVision ⟨0, 0⟩ ⟨0⟩ ([] ++ []) := by
  have hd : (Eye.mk 1 2 3).fovRange ≤ vecNorm (Eye.foodVec ⟨0, 0⟩ (Food.mk ⟨1, 0⟩)) := by
    norm_num [Eye.foodVec, Point2.sub, vecNorm, Real.sqrt_one]
  exact ⟨hd, processVision_far_food _ _ ⟨0⟩ [] [] _ hd⟩

/-! ## C3: movement and wraparound -/

/-- `na::wrap` sends every real into the closed interval `[lo, hi]`
(note: closed at `hi` — a value exactly equal to `hi` is returned as is). -/
lemma naWrap_mem_Icc {lo hi : ℝ} (h : lo < hi) (val : ℝ) :
    naWrap val lo hi ∈ Set.Icc lo hi := by
  have hw : 0 < hi - lo := sub_pos.mpr h
  unfold naWrap
  split_ifs with h1 h2
  · have hcl : (⌈(val - hi) / (hi - lo)⌉ : ℝ) < (val - hi) / (hi - lo) + 1 :=
      Int.ceil_lt_add_one _
    have hle : (val - hi) / (hi - lo) ≤ (⌈(val - hi) / (hi - lo)⌉ : ℝ) :=
      Int.le_ceil _
    have hmul : (hi - lo) * (⌈(val - hi) / (hi - lo)⌉ : ℝ) <
        (hi - lo) * ((val - hi) / (hi - lo) + 1) := (mul_lt_mul_left hw).mpr hcl
    have hexp : (hi - lo) * ((val - hi) / (hi - lo) + 1) = val - hi + (hi - lo) := by
      field_simp
    have hmul' : val - hi ≤ (hi - lo) * (⌈(val - hi) / (hi - lo)⌉ : ℝ) := by
      have := (div_le_iff₀ hw).mp hle
      linarith
    rw [hexp] at hmul
    constructor <;> linarith
  · have hcl : (⌈(lo - val) / (hi - lo)⌉ : ℝ) < (lo - val) / (hi - lo) + 1 :=
      Int.ceil_lt_add_one _
    have hle : (lo - val) / (hi - lo) ≤ (⌈(lo - val) / (hi - lo)⌉ : ℝ) :=
      Int.le_ceil _
    have hmul : (hi - lo) * (⌈(lo - val) / (hi - lo)⌉ : ℝ) <
        (hi - lo) * ((lo - val) / (hi - lo) + 1) := (mul_lt_mul_left hw).mpr hcl
    have hexp : (hi - lo) * ((lo - val) / (hi - lo) + 1) = lo - val + (hi - lo) := by
      field_simp
    have hmul' : lo - val ≤ (hi - lo) * (⌈(lo - val) / (hi - lo)⌉ : ℝ) := by
      have := (div_le_iff₀ hw).mp hle
      linarith
    rw [hexp] at hmul
    constructor <;> linarith
  · exact ⟨not_lt.mp h2, not_lt.mp h1⟩

/-- `na::wrap(v, 0, 1)` for an overshoot of at most one interval width. -/
lemma naWrap_eval_high {v : ℝ} (h1 : 1 < v) (h2 : v ≤ 2) :
    naWrap v 0 1 = v - 1 := by
  unfold naWrap
  rw [if_pos h1]
  have hc : ⌈(v - 1) / (1 - 0 : ℝ)⌉ = 1 := by
    rw [Int.ceil_eq_iff]
    constructor
    · push_cast
      norm_num
      linarith
    · push_cast
      norm_num
      linarith
  rw [hc]
  norm_num

/-- `na::wrap(v, 0, 1)` keeps values already inside `[0, 1]`, including the
boundary value `1` itself. -/
lemma naWrap_eval_mid {v : ℝ} (h1 : 0 ≤ v) (h2 : v ≤ 1) :
    naWrap v 0 1 = v := by
  unfold naWrap
  rw [if_neg (not_lt.mpr h2), if_neg (not_lt.mpr h1)]

/-- An agent at `x = 499/500` with heading `0` and the canonical speed
`0.002`: its position after the movement phase. -/
def worldC3 : World :=
  ⟨[⟨⟨499/500, 1/2⟩, ⟨0⟩, 1/500, eyeDefault, 0⟩], []⟩

/-- C3 counterexample: `na::wrap(x, 0.0, 1.0)` is inclusive at `1.0`, so the
movement phase can leave an x-coordinate exactly equal to `1`, which is not
in `[0,1)`: the claimed invariant "position components lie in [0,1) after
any tick" fails on this input. -/
theorem processMovements_boundary_cex :
    ((Simulation.processMovements worldC3).animals.map fun a => a.position.x)
        = [1] ∧ (1 : ℝ) ∉ Set.Ico (0 : ℝ) 1 := by
  constructor
  · simp only [Simulation.processMovements, worldC3, List.map_cons, List.map_nil,
      moveAnimal, Point2.add, Rotation2.apply, Real.cos_zero, Real.sin_zero,
      one_mul, zero_mul, mul_zero, sub_zero, add_zero]
    rw [naWrap_eval_mid (by norm_num) (by norm_num)]
    norm_num
  · simp

/-- C3 (amended): the movement phase advances each agent by its speed along
its heading and wraps both coordinates with `na::wrap(_, 0.0, 1.0)`, so after
any tick every position component lies in the closed interval `[0, 1]`
(values strictly outside are reduced modulo the width; the boundary value
`1` is kept, hence `[0,1]` rather than `[0,1)`). -/
theorem processMovements_unit_box (w : World) :
    ∀ a ∈ (Simulation.processMovements w).animals,
      a.position.x ∈ Set.Icc (0 : ℝ) 1 ∧ a.position.y ∈ Set.Icc (0 : ℝ) 1 := by
  intro a ha
  simp only [Simulation.processMovements, List.mem_map] at ha
  obtain ⟨b, _, rfl⟩ := ha
  exact ⟨naWrap_mem_Icc one_pos _, naWrap_mem_Icc one_pos _⟩

/-- The 0.999-with-speed-0.002 agent of the spec's movement example. -/
def worldC3w : World :=
  ⟨[⟨⟨999/1000, 1/2⟩, ⟨0⟩, 1/500, eyeDefault, 0⟩], []⟩

/-- Its state after the movement phase: wrapped to `x = 0.001`. -/
def animalC3w : Animal :=
  ⟨⟨1/1000, 1/2⟩, ⟨0⟩, 1/500, eyeDefault, 0⟩

/-- C3 witness: the agent at `x = 0.999`, heading `0`, speed `0.002` ends at
`x = 0.001` (modular wrap, not clamping), and its coordinates lie in `[0,1]`
by the amended theorem. -/
theorem processMovements_unit_box_witness :
    (Simulation.processMovements worldC3w).animals = [animalC3w] ∧
    (animalC3w.position.x ∈ Set.Icc (0 : ℝ) 1 ∧
      animalC3w.position.y ∈ Set.Icc (0 : ℝ) 1) := by
  have h : (Simulation.processMovements worldC3w).animals = [animalC3w] := by
    simp only [Simulation.processMovements, worldC3w, animalC3w, List.map_cons,
      List.map_nil, moveAnimal, Point2.add, Rotation2.apply, Real.cos_zero,
      Real.sin_zero, one_mul, zero_mul, mul_zero, sub_zero, add_zero]
    rw [naWrap_eval_high (by norm_num) (by norm_num),
      naWrap_eval_mid (by norm_num) (by norm_num)]
    norm_num
  refine ⟨h, processMovements_unit_box worldC3w animalC3w ?_⟩
  rw [h]
  exact List.mem_singleton.mpr rfl

/-! ## C9: code collision phase vs the spec's snapshot semantics -/

/-- Being far from every agent is preserved when dropping the head agent. -/
lemma farPt_of_cons {a : Animal} {as : List Animal} {p : Point2}
    (h : farPt (a :: as) p) : farPt as p :=
  fun b hb => h b (List.mem_cons_of_mem a hb)

/-- The simulation relation is preserved when dropping the head agent. -/
lemma FoodRel_of_cons {a : Animal} {as : List Animal} {f : Food} {sf : SpecFood}
    (h : FoodRel (a :: as) f sf) : FoodRel as f sf :=
  ⟨h.1, h.2.1, fun hm => farPt_of_cons (h.2.2 hm)⟩

/-- The collision loop never changes the random stream, only the cursor. -/
lemma collideFoods_stream (a : Animal) :
    ∀ (foods : List Food) (rng : Rng),
      (collideFoods a foods rng).2.stream = rng.stream := by
  intro foods
  induction foods with
  | nil => intro rng; rfl
  | cons f fs ih =>
    intro rng
    simp only [collideFoods]
    split
    · exact ih _
    · exact ih _

/-- One agent's pass: under the relation (and all stream draws far from the
remaining agents), the code's current-position pass and the spec's
snapshot pass consume the same random draws and stay related. -/
lemma collideFoods_sync (a : Animal) (as : List Animal) :
    ∀ {foods : List Food} {sfs : List SpecFood},
      List.Forall₂ (FoodRel (a :: as)) foods sfs →
      ∀ rng : Rng, (∀ n, farPt (a :: as) (rng.stream n)) →
        (collideFoods a foods rng).2 = (specCollideFoods a sfs rng).2 ∧
        List.Forall₂ (FoodRel as) (collideFoods a foods rng).1
          (specCollideFoods a sfs rng).1 := by
  intro foods sfs hrel
  induction hrel with
  | nil =>
    intro rng hs
    exact ⟨rfl, List.Forall₂.nil⟩
  | @cons f sf fs ssf hfsf htail ih =>
    intro rng hs
    obtain ⟨hpos, hunm, hmov⟩ := hfsf
    by_cases hm : sf.moved = true
    · have hfarcur : ¬ (distance a.position f.position ≤ 1 / 100) := by
        rw [hpos]
        exact hmov hm a (List.mem_cons_self a as)
      simp only [collideFoods, specCollideFoods, if_neg hfarcur, if_pos hm]
      exact ⟨(ih rng hs).1,
        List.Forall₂.cons (FoodRel_of_cons ⟨hpos, hunm, hmov⟩) (ih rng hs).2⟩
    · have hm' : sf.moved = false := by
        simpa using hm
      have hcs : sf.cur = sf.snap := hunm hm'
      by_cases hd : distance a.position sf.snap ≤ 1 / 100
      · have hdf : distance a.position f.position ≤ 1 / 100 := by
          rw [hpos, hcs]; exact hd
        simp only [collideFoods, specCollideFoods, if_pos hdf, if_neg hm,
          if_pos hd, Rng.gen]
        refine ⟨(ih ⟨rng.stream, rng.idx + 1⟩ hs).1,
          List.Forall₂.cons ?_ (ih ⟨rng.stream, rng.idx + 1⟩ hs).2⟩
        refine ⟨rfl, ?_, ?_⟩
        · intro hfalse
          simp at hfalse
        · intro _
          exact farPt_of_cons (hs rng.idx)
      · have hdf : ¬ (distance a.position f.position ≤ 1 / 100) := by
          rw [hpos, hcs]; exact hd
        simp only [collideFoods, specCollideFoods, if_neg hdf, if_neg hm,
          if_neg hd]
        exact ⟨(ih rng hs).1,
          List.Forall₂.cons (FoodRel_of_cons ⟨hpos, hunm, hmov⟩) (ih rng hs).2⟩

/-- All agents' passes, by induction over the agent list. -/
lemma collideAnimals_sync :
    ∀ (as : List Animal) {foods : List Food} {sfs : List SpecFood} (rng : Rng),
      (∀ n, farPt as (rng.stream n)) →
      List.Forall₂ (FoodRel as) foods sfs →
      (collideAnimals as foods rng).2 = (specCollideAnimals as sfs rng).2 ∧
      List.Forall₂ (fun (f : Food) (sf : SpecFood) => f.position = sf.cur)
        (collideAnimals as foods rng).1 (specCollideAnimals as sfs rng).1 := by
  intro as
  induction as with
  | nil =>
    intro foods sfs rng hs hrel
    exact ⟨rfl, hrel.imp fun f sf h => h.1⟩
  | cons a rest ih =>
    intro foods sfs rng hs hrel
    obtain ⟨hrng, hrel'⟩ := collideFoods_sync a rest hrel rng hs
    have hs' : ∀ n, farPt rest ((collideFoods a foods rng).2.stream n) := by
      intro n
      rw [collideFoods_stream]
      exact farPt_of_cons (hs n)
    simp only [collideAnimals, specCollideAnimals]
    rw [← hrng]
    exact ih _ hs' hrel'

/-- Pointwise position agreement gives equal projected position lists. -/
lemma map_position_eq_of_forall₂ {l₁ : List Food} {l₂ : List SpecFood}
    (h : List.Forall₂ (fun (f : Food) (sf : SpecFood) => f.position = sf.cur) l₁ l₂) :
    l₁.map Food.position = l₂.map SpecFood.cur := by
  induction h with
  | nil => rfl
  | cons h₁ _ ih => simp only [List.map_cons, h₁, ih]

/-- C9 (amended): the code tests each (agent, food) pair against the food's
*current* position, so it only agrees with the spec's tick-start-snapshot
semantics when every respawn draw lands farther than `0.01` from every
agent; under that hypothesis the two semantics produce the same food
positions and the same final random-source state (in particular each food
claimed at tick start is then repositioned exactly once). -/
theorem collisions_snapshot_agreement (animals : List Animal) (foods : List Food)
    (rng : Rng)
    (hfar : ∀ n, ∀ a ∈ animals, ¬ (distance a.position (rng.stream n) ≤ 1 / 100)) :
    (collideAnimals animals foods rng).1.map Food.position =
      (specCollisions animals foods rng).1 ∧
    (collideAnimals animals foods rng).2 = (specCollisions animals foods rng).2 := by
  have hrel : List.Forall₂ (FoodRel animals) foods
      (foods.map fun f => SpecFood.mk f.position f.position false) := by
    induction foods with
    | nil => exact List.Forall₂.nil
    | cons f fs ih =>
      refine List.Forall₂.cons ⟨rfl, fun _ => rfl, ?_⟩ ih
      intro hfalse
      simp at hfalse
  obtain ⟨hrng, hrel'⟩ := collideAnimals_sync animals rng hfar hrel
  simp only [specCollisions]
  exact ⟨map_position_eq_of_forall₂ hrel', hrng⟩

/-- The point `(1/2, 1/2)` is farther than the eating radius from `(0, 0)`. -/
lemma half_far : ¬ (distance ⟨0, 0⟩ ⟨1/2, 1/2⟩ ≤ 1 / 100) := by
  have h1 : (1 / 100 : ℝ) < Real.sqrt ((1/2 - 0) ^ 2 + (1/2 - 0) ^ 2) :=
    (Real.lt_sqrt (by norm_num)).mpr (by norm_num)
  intro h
  simp only [distance, Point2.sub, vecNorm] at h
  linarith

/-- Two agents sitting exactly on the single food item. -/
def animalsC9 : List Animal :=
  [⟨⟨0, 0⟩, ⟨0⟩, 1/500, eyeDefault, 0⟩, ⟨⟨0, 0⟩, ⟨0⟩, 1/500, eyeDefault, 0⟩]

/-- The single food both agents claim at tick start. -/
def foodsC9 : List Food := [⟨⟨0, 0⟩⟩]

/-- A random source whose first draw lands back on the agents. -/
def rngC9 : Rng := ⟨fun n => if n = 0 then ⟨0, 0⟩ else ⟨1/2, 1/2⟩, 0⟩

/-- C9 counterexample: both agents are within `0.01` of the food at tick
start, yet the code does not evaluate the second agent's test against the
tick-start snapshot: the first agent respawns the food onto `(0,0)` (the
first draw), the second agent then eats the *respawned* food, so the food is
repositioned twice (two draws consumed, final position `(1/2, 1/2)`), while
the snapshot semantics repositions it exactly once (one draw, final position
`(0, 0)`). -/
theorem collisions_snapshot_cex :
    (collideAnimals animalsC9 foodsC9 rngC9).1.map Food.position = [⟨1/2, 1/2⟩] ∧
    (collideAnimals animalsC9 foodsC9 rngC9).2.idx = 2 ∧
    (specCollisions animalsC9 foodsC9 rngC9).1 = [⟨0, 0⟩] ∧
    (specCollisions animalsC9 foodsC9 rngC9).2.idx = 1 := by
  refine ⟨?_, ?_, ?_, ?_⟩ <;>
    norm_num [collideAnimals, collideFoods, specCollisions, specCollideAnimals,
      specCollideFoods, animalsC9, foodsC9, rngC9, Rng.gen, distance_self, half_far]

/-- A single agent at the origin, on the single food. -/
def animalsC9w : List Animal := [⟨⟨0, 0⟩, ⟨0⟩, 1/500, eyeDefault, 0⟩]

/-- The single food of the witness scenario. -/
def foodsC9w : List Food := [⟨⟨0, 0⟩⟩]

/-- A random source all of whose draws are far from the agent. -/
def rngC9w : Rng := ⟨fun _ => ⟨1/2, 1/2⟩, 0⟩

/-- C9 witness: with every respawn draw far from every agent, the code
collision phase agrees with the snapshot semantics. -/
theorem collisions_snapshot_agreement_witness :
    (∀ n, ∀ a ∈ animalsC9w, ¬ (distance a.position (rngC9w.stream n) ≤ 1 / 100)) ∧
    ((collideAnimals animalsC9w foodsC9w rngC9w).1.map Food.position =
        (specCollisions animalsC9w foodsC9w rngC9w).1 ∧
      (collideAnimals animalsC9w foodsC9w rngC9w).2 =
        (specCollisions animalsC9w foodsC9w rngC9w).2) := by
  have hfar : ∀ n, ∀ a ∈ animalsC9w,
      ¬ (distance a.position (rngC9w.stream n) ≤ 1 / 100) := by
    intro n a haa
    simp only [animalsC9w, List.mem_singleton] at haa
    subst haa
    simpa [rngC9w] using half_far
  exact ⟨hfar, collisions_snapshot_agreement animalsC9w foodsC9w rngC9w hfar⟩
